import Mathlib

/-!
Shallow embedding of the hart management layer of the rockos-riscv OpenSBI
fork (`lib/sbi/sbi_hart.c`), specialised to the RV64 build (`__riscv_xlen
== 64`, `__riscv_flen` defined).  Machine words (`unsigned long`) are
modelled as `Nat`, with truncation to 64 bits written explicitly where the
C code relies on it.  The CSR file is modelled as a total function from CSR
numbers to values; hardware probe responses are modelled by an explicit
oracle structure.
-/

namespace SbiHart

/-- All-ones 64-bit word; `~x` on an `unsigned long` is embedded as
`mask64 ^^^ x` (valid for `x < 2^64`). -/
def mask64 : Nat := 2 ^ 64 - 1

/-! ### Architectural constants (values from `riscv_encoding.h`) -/

def CSR_PMPCFG0 : Nat := 0x3A0
def CSR_PMPADDR0 : Nat := 0x3B0
def CSR_SCOUNTEREN : Nat := 0x106
def CSR_MCOUNTEREN : Nat := 0x306
def CSR_MCOUNTINHIBIT : Nat := 0x320
def CSR_SCOUNTOVF : Nat := 0xDA0
def CSR_TIME : Nat := 0xC01
def CSR_MHPMCOUNTER3 : Nat := 0xB03

def PMP_R : Nat := 0x01
def PMP_W : Nat := 0x02
def PMP_X : Nat := 0x04
def PMP_A : Nat := 0x18
def PMP_A_TOR : Nat := 0x08
def PMP_L : Nat := 0x80
def PMP_SHIFT : Nat := 2
/-- RV64 PMP address write pattern (all implementable address bits set). -/
def PMP_ADDR_MASK : Nat := 2 ^ 54 - 1

def MIP_SSIP : Nat := 1 <<< 1
def MIP_STIP : Nat := 1 <<< 5
def MIP_SEIP : Nat := 1 <<< 9
def MIP_LCOFIP : Nat := 1 <<< 13

def CAUSE_MISALIGNED_FETCH : Nat := 0x0
def CAUSE_BREAKPOINT : Nat := 0x3
def CAUSE_USER_ECALL : Nat := 0x8
def CAUSE_VIRTUAL_SUPERVISOR_ECALL : Nat := 0xA
def CAUSE_FETCH_PAGE_FAULT : Nat := 0xC
def CAUSE_LOAD_PAGE_FAULT : Nat := 0xD
def CAUSE_STORE_PAGE_FAULT : Nat := 0xF
def CAUSE_FETCH_GUEST_PAGE_FAULT : Nat := 0x14
def CAUSE_LOAD_GUEST_PAGE_FAULT : Nat := 0x15
def CAUSE_VIRTUAL_INST_FAULT : Nat := 0x16
def CAUSE_STORE_GUEST_PAGE_FAULT : Nat := 0x17

def MSTATUS_FS : Nat := 0x6000

def PRV_U : Nat := 0
def PRV_S : Nat := 1
def PRV_M : Nat := 3

/-- `SBI_EINVAL` from `sbi_error.h`. -/
def SBI_EINVAL : Int := -3

/-! ### Hart feature flags (values from `sbi_hart.h`) -/

def SBI_HART_HAS_SCOUNTEREN : Nat := 1 <<< 0
def SBI_HART_HAS_MCOUNTEREN : Nat := 1 <<< 1
def SBI_HART_HAS_MCOUNTINHIBIT : Nat := 1 <<< 2
def SBI_HART_HAS_SSCOFPMF : Nat := 1 <<< 3
def SBI_HART_HAS_TIME : Nat := 1 <<< 4
def SBI_HART_HAS_LAST_FEATURE : Nat := SBI_HART_HAS_TIME

/-! ### CSR file -/

/-- The machine CSR file: CSR number to current 64-bit value. -/
def Csrs : Type := Nat → Nat

/-- `csr_write_num` / `csr_write`: functional update of the CSR file. -/
def csrWrite (s : Csrs) (c v : Nat) : Csrs :=
  fun c' => if c' = c then v else s c'

/-- The all-zero (reset) CSR file. -/
def csr0 : Csrs := fun _ => 0

/-! ### `pmp_set_tor` (sbi_hart.c lines 196-257, RV64 path)

The C source, for the start slot `n` and then the end slot `n+1`:
drop the bottom two address bits, additionally clear the bit
`NAPOT_SIZE >> 3` (= 0x200) of each shifted address, and read-modify-write
the slot's byte in the shared `pmpcfg` CSR. -/

/-- `NAPOT_SIZE` macro local to `pmp_set_tor`. -/
def NAPOT_SIZE : Nat := 4096

def pmp_set_tor (n prot addr_start addr_end : Nat) (s : Csrs) : Int × Csrs :=
  -- PMP addresses are 4-byte aligned, drop the bottom two bits
  let protected_start := (addr_start >>> 2) &&& (mask64 ^^^ (NAPOT_SIZE >>> 3))
  let protected_end := (addr_end >>> 2) &&& (mask64 ^^^ (NAPOT_SIZE >>> 3))
  -- start region (__riscv_xlen == 64)
  let pmpcfg_csr := (CSR_PMPCFG0 + (n >>> 2)) &&& (mask64 ^^^ 1)
  let pmpcfg_shift := (n &&& 7) <<< 3
  let pmpaddr_csr := CSR_PMPADDR0 + n
  let prot1 := prot &&& (mask64 ^^^ PMP_A)
  let cfgmask := mask64 ^^^ (0xFF <<< pmpcfg_shift)
  let pmpcfg := (s pmpcfg_csr &&& cfgmask) ||| ((prot1 <<< pmpcfg_shift) &&& (mask64 ^^^ cfgmask))
  let s1 := csrWrite s pmpaddr_csr protected_start
  let s2 := csrWrite s1 pmpcfg_csr pmpcfg
  -- end region
  let m := n + 1
  let pmpcfg_csr2 := (CSR_PMPCFG0 + (m >>> 2)) &&& (mask64 ^^^ 1)
  let pmpcfg_shift2 := (m &&& 7) <<< 3
  let pmpaddr_csr2 := CSR_PMPADDR0 + m
  let prot2 := (prot1 &&& (mask64 ^^^ PMP_A)) ||| PMP_A_TOR
  let cfgmask2 := mask64 ^^^ (0xFF <<< pmpcfg_shift2)
  let pmpcfg2 := (s2 pmpcfg_csr2 &&& cfgmask2) ||| ((prot2 <<< pmpcfg_shift2) &&& (mask64 ^^^ cfgmask2))
  let s3 := csrWrite s2 pmpaddr_csr2 protected_end
  let s4 := csrWrite s3 pmpcfg_csr2 pmpcfg2
  (0, s4)

/-- The configuration byte of PMP slot `n` in a CSR file, under the RV64
encoding used by `pmp_set_tor`: byte `n &&& 7` of CSR
`(CSR_PMPCFG0 + (n >>> 2)) &&& ~1`. -/
def cfgByte (s : Csrs) (n : Nat) : Nat :=
  (s ((CSR_PMPCFG0 + (n >>> 2)) &&& (mask64 ^^^ 1)) >>> ((n &&& 7) <<< 3)) &&& 0xFF

/-! ### Bit-scan helpers (`__ffs` / `__fls` from `sbi_bitops.h`) -/

/-- Index of the lowest set bit (`__ffs`); returns 0 on input 0. -/
def lowBit (x : Nat) : Nat :=
  if h : x = 0 ∨ x % 2 = 1 then 0
  else 1 + lowBit (x / 2)
decreasing_by
  push_neg at h
  exact Nat.div_lt_self (Nat.pos_of_ne_zero h.1) (by omega)

/-- Index of the highest set bit (`__fls`), i.e. `log2` for positive input. -/
def highBit (x : Nat) : Nat := Nat.log2 x

/-! ### Domain memory regions and `sbi_hart_pmp_configure`
(sbi_hart.c lines 260-307)

A `sbi_domain_memregion` as used by this file: `base`, `order`, `flags`
and the fork-specific `tor` end-offset field (`tor = 0` means a NAPOT
region, `tor ≠ 0` a top-of-range region, as tested by `if (!reg->tor)`). -/

structure Region where
  base : Nat
  order : Nat
  flags : Nat
  tor : Nat
deriving DecidableEq

/-- Region flag bits from `sbi_domain.h`. -/
def SBI_DOMAIN_MEMREGION_READABLE : Nat := 1 <<< 0
def SBI_DOMAIN_MEMREGION_WRITEABLE : Nat := 1 <<< 1
def SBI_DOMAIN_MEMREGION_EXECUTABLE : Nat := 1 <<< 2
def SBI_DOMAIN_MEMREGION_MMODE : Nat := 1 <<< 3

/-- The flag-translation block at the top of the region loop. -/
def pmpFlagsOf (flags : Nat) : Nat :=
  let f := 0
  let f := if flags &&& SBI_DOMAIN_MEMREGION_READABLE ≠ 0 then f ||| PMP_R else f
  let f := if flags &&& SBI_DOMAIN_MEMREGION_WRITEABLE ≠ 0 then f ||| PMP_W else f
  let f := if flags &&& SBI_DOMAIN_MEMREGION_EXECUTABLE ≠ 0 then f ||| PMP_X else f
  let f := if flags &&& SBI_DOMAIN_MEMREGION_MMODE ≠ 0 then f ||| PMP_L else f
  f

/-- Observable effects of the region loop: a `pmp_set` call (one NAPOT
slot), a `pmp_set_tor` call (two slots), or the two `sbi_printf`
diagnostic lines for a NAPOT region that cannot be configured. -/
inductive PmpAction where
  | set (idx flags base order : Nat)
  | setTor (idx flags addrStart addrEnd : Nat)
  | diag (base order : Nat)
deriving DecidableEq

/-- Hart Feature Record (`struct hart_features`). -/
structure HartFeatures where
  features : Nat
  pmp_count : Nat
  pmp_addr_bits : Nat
  pmp_gran : Nat
  mhpm_count : Nat
  mhpm_bits : Nat
deriving DecidableEq

/-- Modelled from the spec: `log2roundup` (OpenSBI math helper, not under
`src/`) — the least `k < 64` with `x ≤ 2^k`, or 64 when there is none;
on the power-of-two granularity values produced by feature detection this
is the exact base-2 logarithm. -/
def log2roundup (x : Nat) : Nat :=
  ((List.range 64).find? (fun k => x ≤ 1 <<< k)).getD 64

/-- The `sbi_domain_for_each_memregion` loop of `sbi_hart_pmp_configure`,
with `pmp_idx` as accumulator.  `break` on `pmp_count <= pmp_idx`
terminates the whole traversal. -/
def pmpLoop (pmp_count pmp_gran_log2 pmp_addr_max : Nat) :
    List Region → Nat → List PmpAction
  | [], _ => []
  | r :: rest, pmp_idx =>
    if pmp_count ≤ pmp_idx then []
    else
      let pmp_flags := pmpFlagsOf r.flags
      if r.tor = 0 then
        let pmp_addr := r.base >>> PMP_SHIFT
        if pmp_gran_log2 ≤ r.order ∧ pmp_addr < pmp_addr_max then
          .set pmp_idx pmp_flags r.base r.order ::
            pmpLoop pmp_count pmp_gran_log2 pmp_addr_max rest (pmp_idx + 1)
        else
          .diag r.base r.order ::
            pmpLoop pmp_count pmp_gran_log2 pmp_addr_max rest pmp_idx
      else
        .setTor pmp_idx pmp_flags r.base ((r.base + r.tor) % 2 ^ 64) ::
          pmpLoop pmp_count pmp_gran_log2 pmp_addr_max rest (pmp_idx + 2)

/-- `sbi_hart_pmp_configure`: returns the C result code and the list of
observable PMP actions, in program order. -/
def sbi_hart_pmp_configure (h : HartFeatures) (regions : List Region) :
    Int × List PmpAction :=
  if h.pmp_count = 0 then (0, [])
  else
    let pmp_gran_log2 := log2roundup h.pmp_gran
    let pmp_bits := h.pmp_addr_bits - 1
    let pmp_addr_max := (1 <<< pmp_bits) ||| ((1 <<< pmp_bits) - 1)
    (0, pmpLoop h.pmp_count pmp_gran_log2 pmp_addr_max regions 0)

/-- PMP slot indices written by a list of actions: a `set` uses one slot, a
`setTor` uses two (`pmp_set_tor` writes `PMPADDR n` and `PMPADDR (n+1)`). -/
def slotsUsed : List PmpAction → List Nat
  | [] => []
  | .set idx _ _ _ :: rest => idx :: slotsUsed rest
  | .setTor idx _ _ _ :: rest => idx :: (idx + 1) :: slotsUsed rest
  | .diag _ _ :: rest => slotsUsed rest

/-! ### Hardware probe oracle and `hart_detect_features`
(sbi_hart.c lines 465-638)

`csr_read_allowed` / `csr_write_allowed` / `csr_swap` responses of an
unchanged hart are modelled as a stateless oracle: whether a read or a
write of a CSR traps, the value an initial read returns, and the value
read (or swapped) back after a given value was written.  This is faithful
for the detection code because every probe that writes a CSR restores its
original value via `csr_swap`. -/

structure Hw where
  readOk : Nat → Bool
  writeOk : Nat → Nat → Bool
  initVal : Nat → Nat
  readback : Nat → Nat → Nat

/-- `hart_pmp_get_allowed_addr` (lines 465-482): probe `PMPCFG0` with 0,
then write `PMP_ADDR_MASK` to `PMPADDR0` and read it back; any trap makes
the result 0. -/
def hart_pmp_get_allowed_addr (hw : Hw) : Nat :=
  if ¬ hw.writeOk CSR_PMPCFG0 0 then 0
  else if hw.writeOk CSR_PMPADDR0 PMP_ADDR_MASK then
    if hw.readOk CSR_PMPADDR0 then hw.readback CSR_PMPADDR0 PMP_ADDR_MASK
    else 0
  else 0

/-- One `__check_csr(csr, 0, wrval, field, skip)` probe with
`__rdonly = 0`: read must not trap, write of `wrval` must not trap, and
`csr_swap(csr, val)` (which restores the initial value) must read back
`wrval`. -/
def checkCsrOk (hw : Hw) (csr wrval : Nat) : Bool :=
  if ¬ hw.readOk csr then false
  else if ¬ hw.writeOk csr wrval then false
  else hw.readback csr wrval == wrval

/-- Length of the initial run of successful `__check_csr` probes on the
`n` consecutive CSRs starting at `base` (the macro chains
`goto`-skip on the first failure). -/
def checkCsrRun (hw : Hw) (base wrval : Nat) : Nat → Nat
  | 0 => 0
  | n + 1 =>
    if checkCsrOk hw base wrval then 1 + checkCsrRun hw (base + 1) wrval n
    else 0

/-- `hart_pmu_get_allowed_bits` (lines 484-513, RV64 path): write all-ones
to `MHPMCOUNTER3`; if the write traps, `val` keeps its all-ones value; if
the readback traps, return 0. -/
def hart_pmu_get_allowed_bits (hw : Hw) : Nat :=
  if hw.writeOk CSR_MHPMCOUNTER3 mask64 then
    if hw.readOk CSR_MHPMCOUNTER3 then
      highBit (hw.readback CSR_MHPMCOUNTER3 mask64) + 1
    else 0
  else highBit mask64 + 1

/-- One feature-flag probe: read, then write back the value just read;
the feature is present when neither access traps
(lines 601-623). -/
def featureProbeOk (hw : Hw) (csr : Nat) : Bool :=
  hw.readOk csr && hw.writeOk csr (hw.initVal csr)

/-- `hart_detect_features` (lines 515-638).  Only `features`, `pmp_count`
and `mhpm_count` are reset up front; `pmp_gran`, `pmp_addr_bits` and
`mhpm_bits` are written only when the corresponding probe path is taken
and otherwise keep whatever the record held before. -/
def hart_detect_features (hw : Hw) (prior : HartFeatures) : HartFeatures :=
  -- Reset hart features
  let h0 : HartFeatures := { prior with features := 0, pmp_count := 0, mhpm_count := 0 }
  -- Detect the allowed address bits & granularity, then count PMP regions
  let val := hart_pmp_get_allowed_addr hw
  let h1 :=
    if val ≠ 0 then
      { h0 with
        pmp_gran := 1 <<< (lowBit val + 2)
        pmp_addr_bits := highBit val + 1
        pmp_count := checkCsrRun hw CSR_PMPADDR0 val 64 }
    else h0
  -- Detect number of MHPM counters (3, then 4..7, 8..15, 16..31)
  let h2 :=
    if checkCsrOk hw CSR_MHPMCOUNTER3 1 then
      { h1 with
        mhpm_count := 1 + checkCsrRun hw (CSR_MHPMCOUNTER3 + 1) 1 28
        mhpm_bits := hart_pmu_get_allowed_bits hw }
    else h1
  -- Feature flags
  let fs := 0
  let fs := if featureProbeOk hw CSR_SCOUNTEREN then fs ||| SBI_HART_HAS_SCOUNTEREN else fs
  let fs := if featureProbeOk hw CSR_MCOUNTEREN then fs ||| SBI_HART_HAS_MCOUNTEREN else fs
  let fs := if featureProbeOk hw CSR_MCOUNTINHIBIT then fs ||| SBI_HART_HAS_MCOUNTINHIBIT else fs
  -- Counter overflow/filtering is not useful without mcounter/inhibit
  let fs :=
    if fs &&& SBI_HART_HAS_MCOUNTINHIBIT ≠ 0 ∧ fs &&& SBI_HART_HAS_MCOUNTEREN ≠ 0 ∧
        hw.readOk CSR_SCOUNTOVF then
      fs ||| SBI_HART_HAS_SSCOFPMF
    else fs
  let fs := if hw.readOk CSR_TIME then fs ||| SBI_HART_HAS_TIME else fs
  { h2 with features := fs }

/-! ### `sbi_hart_get_features_str` (sbi_hart.c lines 431-463)

The function's observable behaviour on the caller's buffer is modelled as
the ordered list of byte writes `(index, value)` it performs, with `index`
relative to `features_str`. -/

/-- `sbi_hart_feature_id2string` (lines 392-420). -/
def sbi_hart_feature_id2string (feature : Nat) : Option String :=
  if feature = 0 then none
  else if feature = SBI_HART_HAS_SCOUNTEREN then some "scounteren"
  else if feature = SBI_HART_HAS_MCOUNTEREN then some "mcounteren"
  else if feature = SBI_HART_HAS_MCOUNTINHIBIT then some "mcountinhibit"
  else if feature = SBI_HART_HAS_SSCOFPMF then some "sscofpmf"
  else if feature = SBI_HART_HAS_TIME then some "time"
  else none

/-- Byte codes of a feature-name string. -/
def strBytes (s : String) : List Nat := s.toList.map Char.toNat

/-- Consecutive byte writes starting at offset `off`. -/
def writesAt (off : Nat) : List Nat → List (Nat × Nat)
  | [] => []
  | b :: bs => (off, b) :: writesAt (off + 1) bs

/-- Modelled from the spec: `sbi_snprintf` (OpenSBI string helper, not
under `src/`) — writes the formatted bytes into a buffer of capacity `n`,
truncating to at most `n - 1` characters plus a terminating NUL, and
writes nothing when `n = 0`. -/
def snprintfWrites (off n : Nat) (bytes : List Nat) : List (Nat × Nat) :=
  if n = 0 then [] else writesAt off (bytes.take (n - 1) ++ [0])

/-- Modelled from the spec: `sbi_strncpy` (OpenSBI string helper, not
under `src/`) — copies at most `n` bytes of the source string including
its terminating NUL. -/
def strncpyWrites (n : Nat) (bytes : List Nat) : List (Nat × Nat) :=
  writesAt 0 ((bytes ++ [0]).take n)

/-- The `do { ... feat <<= 1; } while (feat <= SBI_HART_HAS_LAST_FEATURE)`
loop (lines 446-456), returning the snprintf write trace and the final
`offset`.  `fuel` bounds the recursion; 64 iterations are more than the
loop can take. -/
def featLoop (features nfstr : Nat) : Nat → Nat → Nat → List (Nat × Nat) × Nat
  | 0, _, off => ([], off)
  | fuel + 1, feat, off =>
    let (tr, off') :=
      if features &&& feat ≠ 0 then
        match sbi_hart_feature_id2string feat with
        | some name =>
          (snprintfWrites off nfstr (strBytes (name ++ ",")),
           off + (strBytes name).length + 1)
        | none => ([], off)
      else ([], off)
    let feat' := feat <<< 1
    if feat' ≤ SBI_HART_HAS_LAST_FEATURE then
      let (tr2, off2) := featLoop features nfstr fuel feat' off'
      (tr ++ tr2, off2)
    else (tr, off')

/-- The `done:` epilogue (lines 458-462). -/
def doneWrites (off nfstr : Nat) : List (Nat × Nat) :=
  if off ≠ 0 then [(off - 1, 0)] else strncpyWrites nfstr (strBytes "none")

/-- `sbi_hart_get_features_str`: byte-write trace on the caller's buffer.
`strNull` models a NULL `features_str` pointer; `nfstr` is the C `int`
length argument. -/
def sbi_hart_get_features_str (strNull : Bool) (features : Nat) (nfstr : Int) :
    List (Nat × Nat) :=
  if strNull ∨ nfstr ≤ 0 then []
  else
    let n := nfstr.toNat
    let ms := writesAt 0 (List.replicate n 0)
    if features = 0 then ms ++ doneWrites 0 n
    else
      let (tr, off) := featLoop features n 64 1 0
      ms ++ tr ++ doneWrites off n

/-! ### `delegate_traps` (sbi_hart.c lines 101-141) -/

/-- The two delegation CSRs. -/
structure DelegCsrs where
  mideleg : Nat
  medeleg : Nat
deriving DecidableEq

/-- Hart / platform configuration consulted by `delegate_traps`. -/
structure DelegCfg where
  misaS : Bool
  misaH : Bool
  hasSscofpmf : Bool
  mfaultsDelegation : Bool
deriving DecidableEq

def delegate_traps (cfg : DelegCfg) (s : DelegCsrs) : Int × DelegCsrs :=
  if ¬ cfg.misaS then
    -- No delegation possible as mideleg does not exist
    (0, s)
  else
    let interrupts := MIP_SSIP ||| MIP_STIP ||| MIP_SEIP
    let interrupts := if cfg.hasSscofpmf then interrupts ||| MIP_LCOFIP else interrupts
    let exceptions := (1 <<< CAUSE_MISALIGNED_FETCH) ||| (1 <<< CAUSE_BREAKPOINT) |||
      (1 <<< CAUSE_USER_ECALL)
    let exceptions :=
      if cfg.mfaultsDelegation then
        exceptions ||| (1 <<< CAUSE_FETCH_PAGE_FAULT) ||| (1 <<< CAUSE_LOAD_PAGE_FAULT) |||
          (1 <<< CAUSE_STORE_PAGE_FAULT)
      else exceptions
    let exceptions :=
      if cfg.misaH then
        exceptions ||| (1 <<< CAUSE_VIRTUAL_SUPERVISOR_ECALL) |||
          (1 <<< CAUSE_FETCH_GUEST_PAGE_FAULT) ||| (1 <<< CAUSE_LOAD_GUEST_PAGE_FAULT) |||
          (1 <<< CAUSE_VIRTUAL_INST_FAULT) ||| (1 <<< CAUSE_STORE_GUEST_PAGE_FAULT)
      else exceptions
    (0, { mideleg := interrupts, medeleg := exceptions })

/-! ### `sbi_hart_hang` and `sbi_hart_switch_mode`
(sbi_hart.c lines 674-747, RV64 path) -/

/-- Execution state of the `while (1) wfi();` loop of `sbi_hart_hang`:
either still inside the loop or (hypothetically) past it.  One `hangStep`
is one trip through the loop body: `wfi` then the unconditional branch
back to the loop head. -/
inductive HangSt where
  | inLoop
  | exited
deriving DecidableEq

def hangStep : HangSt → HangSt
  | .inLoop => .inLoop
  | .exited => .exited

/-- `INSERT_FIELD(val, which, fieldval)` from `riscv_encoding.h`. -/
def INSERT_FIELD (val which fieldval : Nat) : Nat :=
  (val &&& (mask64 ^^^ which)) ||| ((fieldval * (which &&& (mask64 ^^^ (which - 1)))) &&& mask64)

def MSTATUS_MPP : Nat := 0x1800
def MSTATUS_MPIE : Nat := 0x80
def MSTATUS_MPV : Nat := 1 <<< 39

def CSR_MSTATUS : Nat := 0x300
def CSR_MEPC : Nat := 0x341
def CSR_STVEC : Nat := 0x105
def CSR_SSCRATCH : Nat := 0x140
def CSR_SIE : Nat := 0x104
def CSR_SATP : Nat := 0x180
def CSR_UTVEC : Nat := 0x005
def CSR_USCRATCH : Nat := 0x040
def CSR_UIE : Nat := 0x004

/-- ISA extension bits consulted by `sbi_hart_switch_mode`. -/
structure Misa where
  hasS : Bool
  hasU : Bool
  hasH : Bool
  hasN : Bool
deriving DecidableEq

/-- Outcome of `sbi_hart_switch_mode`: either the permanent idle-wait hang
or a completed `mret` transition carrying the final CSR file and the two
argument registers.  The function has no returning outcome. -/
inductive SwitchOutcome where
  | hang
  | mret (final : Csrs) (a0 a1 : Nat)

def sbi_hart_switch_mode (misa : Misa) (arg0 arg1 next_addr next_mode : Nat)
    (next_virt : Bool) (s : Csrs) : SwitchOutcome :=
  if next_mode = PRV_M then
    switchTail misa arg0 arg1 next_addr next_mode next_virt s
  else if next_mode = PRV_S then
    if ¬ misa.hasS then .hang
    else switchTail misa arg0 arg1 next_addr next_mode next_virt s
  else if next_mode = PRV_U then
    if ¬ misa.hasU then .hang
    else switchTail misa arg0 arg1 next_addr next_mode next_virt s
  else .hang
where
  /-- Code after the `switch (next_mode)` dispatch. -/
  switchTail (misa : Misa) (arg0 arg1 next_addr next_mode : Nat)
      (next_virt : Bool) (s : Csrs) : SwitchOutcome :=
    let val := s CSR_MSTATUS
    let val := INSERT_FIELD val MSTATUS_MPP next_mode
    let val := INSERT_FIELD val MSTATUS_MPIE 0
    let val :=
      if misa.hasH then
        if next_virt then INSERT_FIELD val MSTATUS_MPV 1
        else INSERT_FIELD val MSTATUS_MPV 0
      else val
    let s := csrWrite s CSR_MSTATUS val
    let s := csrWrite s CSR_MEPC next_addr
    let s :=
      if next_mode = PRV_S then
        csrWrite (csrWrite (csrWrite (csrWrite s CSR_STVEC next_addr) CSR_SSCRATCH 0)
          CSR_SIE 0) CSR_SATP 0
      else if next_mode = PRV_U then
        if misa.hasN then
          csrWrite (csrWrite (csrWrite s CSR_UTVEC next_addr) CSR_USCRATCH 0) CSR_UIE 0
        else s
      else s
    .mret s arg0 arg1

/-! ### `fp_init` (sbi_hart.c lines 80-99, `__riscv_flen` defined) -/

/-- Floating-point architectural state: the 32 FP registers and `fcsr`. -/
structure FpState where
  fregs : Nat → Nat
  fcsr : Nat

/-- Modelled from the spec: `init_fp_reg i` (from `riscv_fp.h`, not under
`src/`) clears FP register `i` to bit pattern zero. -/
def init_fp_reg (i : Nat) (s : FpState) : FpState :=
  { s with fregs := fun j => if j = i then 0 else s.fregs j }

/-- The `for (i = 0; i < 32; i++) init_fp_reg(i);` loop, unrolled from the
high end: `fpClearLoop n s` performs the first `n` iterations. -/
def fpClearLoop : Nat → FpState → FpState
  | 0, s => s
  | n + 1, s => init_fp_reg n (fpClearLoop n s)

def fp_init (misaD misaF : Bool) (mstatus : Nat) (s : FpState) : Int × FpState :=
  if ¬ misaD ∧ ¬ misaF then (0, s)
  else if mstatus &&& MSTATUS_FS = 0 then (SBI_EINVAL, s)
  else (0, { fpClearLoop 32 s with fcsr := 0 })

/-! ### Concrete hardware configurations and records used as test inputs -/

/-- A hart on which every CSR probe succeeds and every readback (after a
write) returns 4 = 0b100. -/
def hwProbeAll : Hw := ⟨fun _ => true, fun _ _ => true, fun _ => 0, fun _ _ => 4⟩

/-- A hart on which every CSR access traps. -/
def hwNoCsrs : Hw := ⟨fun _ => false, fun _ _ => false, fun _ => 0, fun _ _ => 0⟩

/-- The all-zero Hart Feature Record. -/
def hf0 : HartFeatures := ⟨0, 0, 0, 0, 0, 0⟩

/-- A Hart Feature Record holding a stale `pmp_gran` value 7. -/
def hfStale : HartFeatures := ⟨0, 0, 0, 7, 0, 0⟩

/-- A record of a hart with a single PMP slot. -/
def hfOneSlot : HartFeatures := ⟨0, 1, 32, 4096, 0, 0⟩

/-- One TOR region `[0x1000, 0x2000)` (slot cost 2). -/
def regsOneTor : List Region := [⟨0x1000, 0, 0, 0x1000⟩]

/-- A floating-point state with nonzero registers and `fcsr`. -/
def fpEx : FpState := ⟨fun _ => 5, 9⟩

/-! ### Named components of `pmp_set_tor` (used to state its effect) -/

/-- The `pmpcfg` CSR holding slot `n`'s configuration byte (RV64). -/
def cfgAddr (n : Nat) : Nat := (CSR_PMPCFG0 + (n >>> 2)) &&& (mask64 ^^^ 1)

/-- Bit position of slot `n`'s configuration byte within its CSR (RV64). -/
def shiftOf (n : Nat) : Nat := (n &&& 7) <<< 3

/-- The read-modify-write of one configuration byte performed by
`pmp_set_tor`: clear byte `sh/8` of `old` and install `p` there. -/
def rmwByte (old p sh : Nat) : Nat :=
  (old &&& (mask64 ^^^ (0xFF <<< sh))) |||
    ((p <<< sh) &&& (mask64 ^^^ (mask64 ^^^ (0xFF <<< sh))))

/-- Address transformation applied by `pmp_set_tor` to both region
endpoints: shift right by two, then clear bit `NAPOT_SIZE >> 3`. -/
def torShift (x : Nat) : Nat := (x >>> 2) &&& (mask64 ^^^ (NAPOT_SIZE >>> 3))

/-- `prot &= ~PMP_A` — permission bits with the match-mode bits cleared. -/
def protClearA (p : Nat) : Nat := p &&& (mask64 ^^^ PMP_A)

/-- Configuration value for the end slot: match-mode cleared again, then
`PMP_A_TOR` set. -/
def protTor (p : Nat) : Nat := (protClearA p &&& (mask64 ^^^ PMP_A)) ||| PMP_A_TOR

end SbiHart

namespace SbiHart

/-! ## Theorems -/

/-! ### C10 -/

/-- C10: for every scratch state (feature bitset), calling
`sbi_hart_get_features_str` with a NULL `features_str` pointer or with
`nfstr ≤ 0` returns immediately without writing anything to the output
buffer or touching any other state. -/
theorem sbi_hart_get_features_str_guard (strNull : Bool) (features : Nat) (nfstr : Int)
    (h : strNull = true ∨ nfstr ≤ 0) :
    sbi_hart_get_features_str strNull features nfstr = [] := by
  rcases h with h | h <;> simp [sbi_hart_get_features_str, h]

/-- Witness for C10 at a NULL pointer and at a non-positive length. -/
theorem sbi_hart_get_features_str_guard_w :
    sbi_hart_get_features_str true 7 9 = [] ∧
    sbi_hart_get_features_str false 7 (-2) = [] :=
  ⟨sbi_hart_get_features_str_guard true 7 9 (Or.inl rfl),
   sbi_hart_get_features_str_guard false 7 (-2) (Or.inr (by decide))⟩

/-! ### C4 -/

/-- C4: `delegate_traps` always returns success; on a hart without
supervisor mode it writes nothing (the CSR state is returned unchanged,
so from the all-zero reset state both delegation bitsets stay exactly 0);
with supervisor mode the interrupt bitset written to `mideleg` contains
the supervisor software/timer/external bits and the exception bitset
written to `medeleg` contains the misaligned-fetch, breakpoint and
user-ecall bits. -/
theorem delegate_traps_baseline (cfg : DelegCfg) (s : DelegCsrs) :
    (delegate_traps cfg s).1 = 0 ∧
    (cfg.misaS = false → delegate_traps cfg s = (0, s)) ∧
    (cfg.misaS = false → (delegate_traps cfg ⟨0, 0⟩).2 = ⟨0, 0⟩) ∧
    (cfg.misaS = true →
      (delegate_traps cfg s).2.mideleg &&& (MIP_SSIP ||| MIP_STIP ||| MIP_SEIP) =
        MIP_SSIP ||| MIP_STIP ||| MIP_SEIP ∧
      (delegate_traps cfg s).2.medeleg &&&
          ((1 <<< CAUSE_MISALIGNED_FETCH) ||| (1 <<< CAUSE_BREAKPOINT) |||
            (1 <<< CAUSE_USER_ECALL)) =
        (1 <<< CAUSE_MISALIGNED_FETCH) ||| (1 <<< CAUSE_BREAKPOINT) |||
          (1 <<< CAUSE_USER_ECALL)) := by
  obtain ⟨mS, mH, sof, mf⟩ := cfg
  cases mS
  · exact ⟨rfl, fun _ => rfl, fun _ => rfl, fun h => by simp at h⟩
  · refine ⟨rfl, fun h => by simp at h, fun h => by simp at h, fun _ => ?_⟩
    cases mH <;> cases sof <;> cases mf <;> constructor <;> simp [delegate_traps] <;> decide

/-- Witness for C4: no supervisor mode leaves the reset state all-zero;
with supervisor mode the baseline interrupt bits are delegated. -/
theorem delegate_traps_baseline_w :
    (delegate_traps ⟨false, false, false, false⟩ ⟨0, 0⟩).2 = ⟨0, 0⟩ ∧
    (delegate_traps ⟨true, false, false, false⟩ ⟨0, 0⟩).2.mideleg &&&
        (MIP_SSIP ||| MIP_STIP ||| MIP_SEIP) = MIP_SSIP ||| MIP_STIP ||| MIP_SEIP :=
  ⟨(delegate_traps_baseline ⟨false, false, false, false⟩ ⟨0, 0⟩).2.2.1 rfl,
   ((delegate_traps_baseline ⟨true, false, false, false⟩ ⟨0, 0⟩).2.2.2 rfl).1⟩

/-! ### C9 -/

/-- The FP register clearing loop zeroes exactly the first `n` registers. -/
theorem fpClearLoop_fregs (s : FpState) :
    ∀ n i, (fpClearLoop n s).fregs i = if i < n then 0 else s.fregs i := by
  intro n
  induction n with
  | zero => intro i; simp [fpClearLoop]
  | succ n ih =>
    intro i
    simp only [fpClearLoop, init_fp_reg]
    by_cases h : i = n
    · subst h; simp
    · by_cases h2 : i < n
      · have h3 : i < n + 1 := by omega
        simp [h, ih i, h2, h3]
      · have h3 : ¬ i < n + 1 := by omega
        simp [h, ih i, h2, h3]

/-- The FP register clearing loop does not touch `fcsr`. -/
theorem fpClearLoop_fcsr (s : FpState) : ∀ n, (fpClearLoop n s).fcsr = s.fcsr := by
  intro n
  induction n with
  | zero => rfl
  | succ n ih => simp [fpClearLoop, init_fp_reg, ih]

/-- C9: `fp_init` returns success without touching FP state when neither F
nor D is present; with F or D present but the `mstatus` FS field clear it
returns `SBI_EINVAL` without clearing anything; otherwise it clears all 32
FP registers and `fcsr` and returns success. -/
theorem fp_init_spec (misaD misaF : Bool) (mstatus : Nat) (s : FpState) :
    (misaD = false ∧ misaF = false → fp_init misaD misaF mstatus s = (0, s)) ∧
    ((misaD = true ∨ misaF = true) → mstatus &&& MSTATUS_FS = 0 →
      fp_init misaD misaF mstatus s = (SBI_EINVAL, s)) ∧
    ((misaD = true ∨ misaF = true) → mstatus &&& MSTATUS_FS ≠ 0 →
      (fp_init misaD misaF mstatus s).1 = 0 ∧
      (∀ i, i < 32 → (fp_init misaD misaF mstatus s).2.fregs i = 0) ∧
      (fp_init misaD misaF mstatus s).2.fcsr = 0) := by
  refine ⟨?_, ?_, ?_⟩
  · rintro ⟨hD, hF⟩; subst hD; subst hF; rfl
  · intro hDF hFS
    rcases hDF with h | h <;> subst h <;> simp [fp_init, hFS]
  · intro hDF hFS
    have hres : fp_init misaD misaF mstatus s = (0, { fpClearLoop 32 s with fcsr := 0 }) := by
      rcases hDF with h | h <;> subst h <;> simp [fp_init, hFS]
    rw [hres]
    exact ⟨rfl, fun i hi => by simp [fpClearLoop_fregs, hi], rfl⟩

/-- Witness for C9 on all three branches. -/
theorem fp_init_spec_w :
    (fp_init true false 0x2000 fpEx).1 = 0 ∧
    (fp_init true false 0x2000 fpEx).2.fregs 0 = 0 ∧
    fp_init false false 0 fpEx = (0, fpEx) ∧
    fp_init false true 0 fpEx = (SBI_EINVAL, fpEx) :=
  ⟨((fp_init_spec true false 0x2000 fpEx).2.2 (Or.inl rfl) (by decide)).1,
   ((fp_init_spec true false 0x2000 fpEx).2.2 (Or.inl rfl) (by decide)).2.1 0 (by decide),
   (fp_init_spec false false 0 fpEx).1 ⟨rfl, rfl⟩,
   (fp_init_spec false true 0 fpEx).2.1 (Or.inr rfl) (by decide)⟩

/-! ### C8 -/

/-- C8: `sbi_hart_switch_mode` never completes a transition when the
target is supervisor mode without the S extension, user mode without the U
extension, or any mode outside machine/supervisor/user — in each case the
outcome is the hang state; and the `while (1) wfi();` loop of
`sbi_hart_hang` never reaches its exit, so the hang is permanent and the
function never returns. -/
theorem sbi_hart_switch_mode_invalid_hangs :
    (∀ (m : Misa) (arg0 arg1 next_addr next_mode : Nat) (next_virt : Bool) (s : Csrs),
      (next_mode = PRV_S ∧ m.hasS = false) ∨ (next_mode = PRV_U ∧ m.hasU = false) ∨
        (next_mode ≠ PRV_M ∧ next_mode ≠ PRV_S ∧ next_mode ≠ PRV_U) →
      sbi_hart_switch_mode m arg0 arg1 next_addr next_mode next_virt s =
        SwitchOutcome.hang) ∧
    (∀ k, hangStep^[k] HangSt.inLoop ≠ HangSt.exited) := by
  constructor
  · rintro m a0 a1 na nm nv s (⟨rfl, hS⟩ | ⟨rfl, hU⟩ | ⟨h1, h2, h3⟩)
    · simp [sbi_hart_switch_mode, PRV_S, PRV_M, hS]
    · simp [sbi_hart_switch_mode, PRV_U, PRV_M, PRV_S, hU]
    · simp [sbi_hart_switch_mode, h1, h2, h3]
  · intro k
    have hloop : hangStep^[k] HangSt.inLoop = HangSt.inLoop := by
      induction k with
      | zero => rfl
      | succ k ih => rw [Function.iterate_succ_apply', ih]; rfl
    simp [hloop]

/-- Witness for C8: requesting supervisor mode without the S extension
hangs, and the hang loop is still running after 5 iterations. -/
theorem sbi_hart_switch_mode_invalid_hangs_w :
    sbi_hart_switch_mode ⟨false, false, false, false⟩ 0 0 0 PRV_S false csr0 =
      SwitchOutcome.hang ∧
    hangStep^[5] HangSt.inLoop ≠ HangSt.exited :=
  ⟨sbi_hart_switch_mode_invalid_hangs.1 ⟨false, false, false, false⟩ 0 0 0 PRV_S false csr0
     (Or.inl ⟨rfl, rfl⟩),
   sbi_hart_switch_mode_invalid_hangs.2 5⟩

/-! ### C5 -/

/-- C5: when the all-ones write/readback probe of `PMPADDR0` yields a
nonzero value `v`, detection records `pmp_gran = 2^(lowest set bit of v
+ 2)` and `pmp_addr_bits = highest set bit of v + 1`; when the write or
the readback traps, `pmp_count` stays 0 and `sbi_hart_pmp_configure`
programs no PMP slot and returns success. -/
theorem pmp_detection_spec (hw : Hw) (prior : HartFeatures) (regions : List Region) :
    (hart_pmp_get_allowed_addr hw ≠ 0 →
      (hart_detect_features hw prior).pmp_gran =
        2 ^ (lowBit (hart_pmp_get_allowed_addr hw) + 2) ∧
      (hart_detect_features hw prior).pmp_addr_bits =
        highBit (hart_pmp_get_allowed_addr hw) + 1) ∧
    (hw.writeOk CSR_PMPADDR0 PMP_ADDR_MASK = false ∨ hw.readOk CSR_PMPADDR0 = false →
      (hart_detect_features hw prior).pmp_count = 0 ∧
      sbi_hart_pmp_configure (hart_detect_features hw prior) regions = (0, [])) := by
  constructor
  · intro hv
    by_cases hm : checkCsrOk hw CSR_MHPMCOUNTER3 1 = true <;>
      simp [hart_detect_features, hv, hm, Nat.one_shiftLeft]
  · intro h
    have hval : hart_pmp_get_allowed_addr hw = 0 := by
      rcases h with h | h <;> simp [hart_pmp_get_allowed_addr, h]
    have hcount : (hart_detect_features hw prior).pmp_count = 0 := by
      by_cases hm : checkCsrOk hw CSR_MHPMCOUNTER3 1 = true <;>
        simp [hart_detect_features, hval, hm]
    exact ⟨hcount, by simp [sbi_hart_pmp_configure, hcount]⟩

/-- Witness for C5: a hart whose `PMPADDR0` reads back `0b100` records
granularity `2^4` and 3 address bits; a hart where every access traps
keeps `pmp_count = 0` and configures nothing. -/
theorem pmp_detection_spec_w :
    ((hart_detect_features hwProbeAll hf0).pmp_gran =
        2 ^ (lowBit (hart_pmp_get_allowed_addr hwProbeAll) + 2) ∧
      (hart_detect_features hwProbeAll hf0).pmp_addr_bits =
        highBit (hart_pmp_get_allowed_addr hwProbeAll) + 1) ∧
    ((hart_detect_features hwNoCsrs hf0).pmp_count = 0 ∧
      sbi_hart_pmp_configure (hart_detect_features hwNoCsrs hf0) regsOneTor = (0, [])) :=
  ⟨(pmp_detection_spec hwProbeAll hf0 []).1 (by decide),
   (pmp_detection_spec hwNoCsrs hf0 regsOneTor).2 (Or.inl rfl)⟩

/-! ### C7 -/

/-- C7 counterexample: `hart_detect_features` does not reset every field —
on a hart where every CSR access traps, a stale `pmp_gran = 7` in the
prior record survives detection, so the resulting record depends on the
record's prior contents. -/
theorem hart_detect_features_stale_gran :
    (hart_detect_features hwNoCsrs hfStale).pmp_gran = 7 ∧
    hart_detect_features hwNoCsrs hfStale ≠ hart_detect_features hwNoCsrs hf0 := by
  constructor <;> decide

/-- C7 amended: detection resets only `features`, `pmp_count` and
`mhpm_count` before rescanning; `pmp_gran`, `pmp_addr_bits` and
`mhpm_bits` are overwritten only when the corresponding probe succeeds
and otherwise retain the record's prior contents.  Running detection
twice in a row on unchanged hardware still yields an identical record. -/
theorem hart_detect_features_idempotent (hw : Hw) (prior : HartFeatures) :
    hart_detect_features hw (hart_detect_features hw prior) =
      hart_detect_features hw prior := by
  by_cases hv : hart_pmp_get_allowed_addr hw = 0 <;>
    by_cases hm : checkCsrOk hw CSR_MHPMCOUNTER3 1 = true <;>
      simp [hart_detect_features, hv, hm]

/-! ### C2 -/

/-- C2 counterexample: with a single PMP slot (`pmp_count = 1`) and one
TOR region, `sbi_hart_pmp_configure` still calls `pmp_set_tor` at slot 0,
which programs slots 0 and 1 — slot 1 is at index `pmp_count`, beyond the
hart's capacity, so a region that does not fit by slot cost is programmed
anyway. -/
theorem pmp_configure_tor_exceeds_capacity :
    hfOneSlot.pmp_count = 1 ∧
    slotsUsed (sbi_hart_pmp_configure hfOneSlot regsOneTor).2 = [0, 1] ∧
    ∃ i ∈ slotsUsed (sbi_hart_pmp_configure hfOneSlot regsOneTor).2,
      hfOneSlot.pmp_count ≤ i := by
  exact ⟨rfl, by decide, ⟨1, by decide, by decide⟩⟩

/-- Once the slot cursor has reached capacity, the region loop stops and
emits nothing. -/
theorem pmpLoop_break (K g amax : Nat) (regs : List Region) (idx : Nat) (h : K ≤ idx) :
    pmpLoop K g amax regs idx = [] := by
  cases regs <;> simp [pmpLoop, h]

/-- Slot bookkeeping of the region loop: every slot index lies between the
starting cursor and `K`; the slot list is strictly increasing; and every
`pmp_set` or `pmp_set_tor` call starts at a slot index `< K`. -/
theorem pmpLoop_slots (K g amax : Nat) : ∀ (regs : List Region) (idx : Nat),
    (∀ j ∈ slotsUsed (pmpLoop K g amax regs idx), idx ≤ j ∧ j ≤ K) ∧
    (slotsUsed (pmpLoop K g amax regs idx)).Chain' (· < ·) ∧
    (∀ i fl b o, PmpAction.set i fl b o ∈ pmpLoop K g amax regs idx → i < K) ∧
    (∀ i fl a b, PmpAction.setTor i fl a b ∈ pmpLoop K g amax regs idx → i < K) := by
  intro regs
  induction regs with
  | nil => intro idx; simp [pmpLoop, slotsUsed]
  | cons r rest ih =>
    intro idx
    by_cases hK : K ≤ idx
    · simp [pmpLoop, hK, slotsUsed]
    · push_neg at hK
      by_cases ht : r.tor = 0
      · by_cases hc : g ≤ r.order ∧ r.base >>> PMP_SHIFT < amax
        · obtain ⟨ihb, ihc, ihs, ihtor⟩ := ih (idx + 1)
          have hrw : pmpLoop K g amax (r :: rest) idx =
              PmpAction.set idx (pmpFlagsOf r.flags) r.base r.order ::
                pmpLoop K g amax rest (idx + 1) := by
            simp [pmpLoop, Nat.not_le.mpr hK, ht, hc]
          rw [hrw]
          refine ⟨?_, ?_, ?_, ?_⟩
          · intro j hj
            rcases List.mem_cons.mp hj with rfl | hj
            · exact ⟨le_refl _, by omega⟩
            · have := ihb j hj; omega
          · rw [show slotsUsed (PmpAction.set idx (pmpFlagsOf r.flags) r.base r.order ::
                pmpLoop K g amax rest (idx + 1)) =
                idx :: slotsUsed (pmpLoop K g amax rest (idx + 1)) from rfl]
            refine List.chain'_cons'.mpr ⟨?_, ihc⟩
            intro y hy
            have hmem := List.mem_of_mem_head? hy
            have := ihb y hmem
            omega
          · intro i fl b o hmem
            rcases List.mem_cons.mp hmem with heq | hmem
            · cases heq; omega
            · exact ihs i fl b o hmem
          · intro i fl a b hmem
            rcases List.mem_cons.mp hmem with heq | hmem
            · cases heq
            · exact ihtor i fl a b hmem
        · obtain ⟨ihb, ihc, ihs, ihtor⟩ := ih idx
          have hrw : pmpLoop K g amax (r :: rest) idx =
              PmpAction.diag r.base r.order :: pmpLoop K g amax rest idx := by
            simp [pmpLoop, Nat.not_le.mpr hK, ht, hc]
          rw [hrw]
          refine ⟨?_, ?_, ?_, ?_⟩
          · intro j hj; exact ihb j hj
          · exact ihc
          · intro i fl b o hmem
            rcases List.mem_cons.mp hmem with heq | hmem
            · cases heq
            · exact ihs i fl b o hmem
          · intro i fl a b hmem
            rcases List.mem_cons.mp hmem with heq | hmem
            · cases heq
            · exact ihtor i fl a b hmem
      · obtain ⟨ihb, ihc, ihs, ihtor⟩ := ih (idx + 2)
        have hrw : pmpLoop K g amax (r :: rest) idx =
            PmpAction.setTor idx (pmpFlagsOf r.flags) r.base ((r.base + r.tor) % 2 ^ 64) ::
              pmpLoop K g amax rest (idx + 2) := by
          simp [pmpLoop, Nat.not_le.mpr hK, ht]
        rw [hrw]
        refine ⟨?_, ?_, ?_, ?_⟩
        · intro j hj
          rcases List.mem_cons.mp hj with rfl | hj
          · exact ⟨le_refl _, by omega⟩
          · rcases List.mem_cons.mp hj with rfl | hj
            · exact ⟨by omega, by omega⟩
            · have := ihb j hj; omega
        · rw [show slotsUsed (PmpAction.setTor idx (pmpFlagsOf r.flags) r.base
              ((r.base + r.tor) % 2 ^ 64) :: pmpLoop K g amax rest (idx + 2)) =
              idx :: (idx + 1) :: slotsUsed (pmpLoop K g amax rest (idx + 2)) from rfl]
          refine List.chain'_cons'.mpr ⟨fun y hy => ?_, List.chain'_cons'.mpr ⟨fun y hy => ?_, ihc⟩⟩
          · simp at hy; omega
          · have hmem := List.mem_of_mem_head? hy
            have := ihb y hmem
            omega
        · intro i fl b o hmem
          rcases List.mem_cons.mp hmem with heq | hmem
          · cases heq
          · exact ihs i fl b o hmem
        · intro i fl a b hmem
          rcases List.mem_cons.mp hmem with heq | hmem
          · cases heq; omega
          · exact ihtor i fl a b hmem

/-- C2 amended: `sbi_hart_pmp_configure` always returns success; slots are
assigned sequentially in region-iteration order (the list of programmed
slot indices is strictly increasing, so regions are never reordered);
every `pmp_set`/`pmp_set_tor` call starts at a slot index strictly below
the capacity `pmp_count`, and every programmed slot index is at most
`pmp_count` — a TOR region started at slot `pmp_count - 1` programs its
end entry at slot `pmp_count`, one past capacity; and once the slot
cursor has reached capacity, all remaining regions are skipped. -/
theorem pmp_configure_order (h : HartFeatures) (regions : List Region) :
    (sbi_hart_pmp_configure h regions).1 = 0 ∧
    (slotsUsed (sbi_hart_pmp_configure h regions).2).Chain' (· < ·) ∧
    (∀ j ∈ slotsUsed (sbi_hart_pmp_configure h regions).2, j ≤ h.pmp_count) ∧
    (∀ i fl b o, PmpAction.set i fl b o ∈ (sbi_hart_pmp_configure h regions).2 →
      i < h.pmp_count) ∧
    (∀ i fl a b, PmpAction.setTor i fl a b ∈ (sbi_hart_pmp_configure h regions).2 →
      i < h.pmp_count) ∧
    (∀ (rest : List Region) (idx g amax : Nat), h.pmp_count ≤ idx →
      pmpLoop h.pmp_count g amax rest idx = []) := by
  by_cases hc : h.pmp_count = 0
  · refine ⟨by simp [sbi_hart_pmp_configure, hc], ?_, ?_, ?_, ?_,
      fun rest idx g amax h2 => pmpLoop_break _ g amax rest idx h2⟩ <;>
      simp [sbi_hart_pmp_configure, hc, slotsUsed]
  · have hres : (sbi_hart_pmp_configure h regions).2 =
        pmpLoop h.pmp_count (log2roundup h.pmp_gran)
          ((1 <<< (h.pmp_addr_bits - 1)) ||| ((1 <<< (h.pmp_addr_bits - 1)) - 1)) regions 0 := by
      simp [sbi_hart_pmp_configure, hc]
    obtain ⟨hb, hchain, hs, htor⟩ := pmpLoop_slots h.pmp_count (log2roundup h.pmp_gran)
      ((1 <<< (h.pmp_addr_bits - 1)) ||| ((1 <<< (h.pmp_addr_bits - 1)) - 1)) regions 0
    refine ⟨by simp [sbi_hart_pmp_configure, hc], ?_, ?_, ?_, ?_, ?_⟩
    · rw [hres]; exact hchain
    · rw [hres]; exact fun j hj => (hb j hj).2
    · rw [hres]; exact hs
    · rw [hres]; exact htor
    · exact fun rest idx g amax h2 => pmpLoop_break _ g amax rest idx h2

/-- Witness for C2 (amended): with one slot and one TOR region the result
code is 0 and the programmed slot 1 is within the `≤ pmp_count` bound. -/
theorem pmp_configure_order_w :
    (sbi_hart_pmp_configure hfOneSlot regsOneTor).1 = 0 ∧ (1 : Nat) ≤ hfOneSlot.pmp_count :=
  ⟨(pmp_configure_order hfOneSlot regsOneTor).1,
   (pmp_configure_order hfOneSlot regsOneTor).2.2.1 1 (by decide)⟩

/-! ### C6 -/

/-- C6: a NAPOT region whose size order is below the granularity log2, or
whose shifted base address is not below the addressable-range bound, is
never programmed when the loop reaches it: the loop emits exactly the
diagnostic for it and continues with the remaining regions at an unchanged
slot cursor; and `sbi_hart_pmp_configure` still returns success. -/
theorem pmp_napot_invalid_skipped (K g amax idx : Nat) (r : Region) (rest : List Region)
    (hreach : idx < K) (hnapot : r.tor = 0)
    (hbad : r.order < g ∨ amax ≤ r.base >>> PMP_SHIFT) :
    pmpLoop K g amax (r :: rest) idx =
      PmpAction.diag r.base r.order :: pmpLoop K g amax rest idx ∧
    (∀ (h : HartFeatures) (regions : List Region),
      (sbi_hart_pmp_configure h regions).1 = 0) := by
  constructor
  · have hcond : ¬ (g ≤ r.order ∧ r.base >>> PMP_SHIFT < amax) := by
      rcases hbad with h | h <;> omega
    simp [pmpLoop, Nat.not_le.mpr hreach, hnapot, hcond]
  · intro h regions
    by_cases hc : h.pmp_count = 0 <;> simp [sbi_hart_pmp_configure, hc]

/-- Witness for C6: a NAPOT region of order 5 on a hart with granularity
log2 of 12 yields exactly one diagnostic and no programmed slot. -/
theorem pmp_napot_invalid_skipped_w :
    pmpLoop 1 12 100 [⟨0x1000, 5, 0, 0⟩] 0 =
      PmpAction.diag 0x1000 5 :: pmpLoop 1 12 100 [] 0 ∧
    (sbi_hart_pmp_configure hf0 []).1 = 0 :=
  ⟨(pmp_napot_invalid_skipped 1 12 100 0 ⟨0x1000, 5, 0, 0⟩ [] (by decide) rfl
      (Or.inl (by decide))).1,
   (pmp_napot_invalid_skipped 1 12 100 0 ⟨0x1000, 5, 0, 0⟩ [] (by decide) rfl
      (Or.inl (by decide))).2 hf0 []⟩

/-! ### C3 -/

/-- C3 (code bug): at the failing input — the three present features
`scounteren`, `mcounteren`, `mcountinhibit` (each name ≥ 6 characters)
with a buffer of length `nfstr = 5` — the renderer's write trace includes
bytes at offsets 11–15, 22–26 and a final terminator at offset 35, all of
which lie outside the first 5 bytes of the caller's buffer: each
`sbi_snprintf(features_str + offset, nfstr, ...)` call is bounded by
`nfstr` instead of `nfstr - offset`, and the final
`features_str[offset - 1] = 0` uses an offset past the buffer end. -/
theorem features_str_writes_out_of_bounds :
    sbi_hart_get_features_str false
        (SBI_HART_HAS_SCOUNTEREN ||| SBI_HART_HAS_MCOUNTEREN ||| SBI_HART_HAS_MCOUNTINHIBIT)
        5 =
      [(0, 0), (1, 0), (2, 0), (3, 0), (4, 0),
       (0, 115), (1, 99), (2, 111), (3, 117), (4, 0),
       (11, 109), (12, 99), (13, 111), (14, 117), (15, 0),
       (22, 109), (23, 99), (24, 111), (25, 117), (26, 0),
       (35, 0)] ∧
    (35, 0) ∈ sbi_hart_get_features_str false
        (SBI_HART_HAS_SCOUNTEREN ||| SBI_HART_HAS_MCOUNTEREN ||| SBI_HART_HAS_MCOUNTINHIBIT)
        5 ∧
    ¬ (35 < 5) :=
  ⟨by decide, by decide, by decide⟩

/-! ### C1 -/

/-- C1 counterexample: for the TOR region starting at `0x800`,
`pmp_set_tor` does not store the start address shifted right by two
(`0x800 >> 2 = 0x200`): it additionally clears bit 9
(`protected_start &= ~(NAPOT_SIZE >> 3)`), so `PMPADDR0` reads 0. -/
theorem pmp_set_tor_drops_addr_bit :
    (pmp_set_tor 0 PMP_R 0x800 0x3000 csr0).2 CSR_PMPADDR0 = 0 ∧
    0x800 >>> 2 = 0x200 ∧ (0 : Nat) ≠ 0x200 :=
  ⟨by decide, by decide, by decide⟩

/-! #### Helper lemmas about the `pmp_set_tor` state update -/

theorem csrWrite_self (s : Csrs) (c v : Nat) : csrWrite s c v c = v := by
  simp [csrWrite]

theorem csrWrite_other (s : Csrs) (c v c' : Nat) (h : c' ≠ c) : csrWrite s c v c' = s c' := by
  simp [csrWrite, h]

/-- The result code of `pmp_set_tor` (RV64 path) is always 0. -/
theorem pmp_set_tor_fst (n prot a b : Nat) (s : Csrs) : (pmp_set_tor n prot a b s).1 = 0 := rfl

/-- The CSR file produced by `pmp_set_tor`, written as the four CSR writes
it performs, in program order. -/
theorem pmp_set_tor_snd (n prot a b : Nat) (s : Csrs) :
    (pmp_set_tor n prot a b s).2 =
      csrWrite
        (csrWrite
          (csrWrite (csrWrite s (CSR_PMPADDR0 + n) (torShift a))
            (cfgAddr n) (rmwByte (s (cfgAddr n)) (protClearA prot) (shiftOf n)))
          (CSR_PMPADDR0 + (n + 1)) (torShift b))
        (cfgAddr (n + 1))
        (rmwByte
          (csrWrite (csrWrite s (CSR_PMPADDR0 + n) (torShift a))
            (cfgAddr n) (rmwByte (s (cfgAddr n)) (protClearA prot) (shiftOf n))
            (cfgAddr (n + 1)))
          (protTor prot) (shiftOf (n + 1))) := rfl

theorem cfgByte_eval (s : Csrs) (m : Nat) :
    cfgByte s m = (s (cfgAddr m) >>> shiftOf m) &&& 0xFF := rfl

theorem land_seven (n : Nat) : n &&& 7 = n % 8 := by
  apply Nat.eq_of_testBit_eq
  intro i
  rw [show (8 : Nat) = 2 ^ 3 by norm_num, Nat.testBit_mod_two_pow,
    Nat.testBit_land, show (7 : Nat) = 2 ^ 3 - 1 by norm_num, Nat.testBit_two_pow_sub_one]
  exact Bool.and_comm _ _

theorem shiftOf_eq (n : Nat) : shiftOf n = n % 8 * 8 := by
  rw [shiftOf, land_seven, Nat.shiftLeft_eq]

theorem cfgAddr_eq (n : Nat) (hn : n < 64) : cfgAddr n = CSR_PMPCFG0 + 2 * (n / 8) := by
  rw [cfgAddr]
  have h4 : n >>> 2 = n / 4 := by rw [Nat.shiftRight_eq_div_pow]
  have h8 : n / 8 = n / 4 / 2 := by omega
  rw [h4, h8]
  have hq16 : n / 4 < 16 := by omega
  set q := n / 4 with hq
  clear_value q
  interval_cases q <;> decide

/-- Extracting the written byte of a read-modify-write. -/
theorem rmwByte_self (old p sh : Nat) (hsh : sh ≤ 56) :
    (rmwByte old p sh >>> sh) &&& 0xFF = p &&& 0xFF := by
  rw [rmwByte, Nat.xor_cancel_left]
  simp only [mask64]
  apply Nat.eq_of_testBit_eq
  intro i
  simp only [Nat.testBit_land, Nat.testBit_shiftRight, Nat.testBit_lor, Nat.testBit_xor,
    Nat.testBit_shiftLeft, show (0xFF : Nat) = 2 ^ 8 - 1 from rfl, Nat.testBit_two_pow_sub_one]
  by_cases h : i < 8
  · have h1 : sh + i ≥ sh := by omega
    have h2 : sh + i - sh = i := by omega
    have h3 : sh + i < 64 := by omega
    simp [h1, h2, h3, h]
  · have h2 : sh + i - sh = i := by omega
    simp [h2, h]

/-- A read-modify-write at one byte leaves every other byte unchanged. -/
theorem rmwByte_other (old p sh sh' : Nat) (hsh' : sh' ≤ 56)
    (hsep : sh' + 8 ≤ sh ∨ sh + 8 ≤ sh') :
    (rmwByte old p sh >>> sh') &&& 0xFF = (old >>> sh') &&& 0xFF := by
  rw [rmwByte, Nat.xor_cancel_left]
  simp only [mask64]
  apply Nat.eq_of_testBit_eq
  intro i
  simp only [Nat.testBit_land, Nat.testBit_shiftRight, Nat.testBit_lor, Nat.testBit_xor,
    Nat.testBit_shiftLeft, show (0xFF : Nat) = 2 ^ 8 - 1 from rfl, Nat.testBit_two_pow_sub_one]
  by_cases h : i < 8
  · have h3 : sh' + i < 64 := by omega
    by_cases hge : sh' + i ≥ sh
    · have hno : ¬ (sh' + i - sh < 8) := by omega
      simp [hge, hno, h3, h]
    · simp [hge, h3, h]
  · simp [h]

theorem lor_land_distrib (x y z : Nat) : (x ||| y) &&& z = (x &&& z) ||| (y &&& z) := by
  apply Nat.eq_of_testBit_eq
  intro i
  simp only [Nat.testBit_land, Nat.testBit_lor]
  cases x.testBit i <;> cases y.testBit i <;> cases z.testBit i <;> rfl

theorem protClearA_byte (p : Nat) : protClearA p &&& 0xFF = p &&& (0xFF ^^^ PMP_A) := by
  rw [protClearA, Nat.land_assoc]
  congr 1

theorem protTor_byte (p : Nat) :
    protTor p &&& 0xFF = (p &&& (0xFF ^^^ PMP_A)) ||| PMP_A_TOR := by
  rw [protTor, lor_land_distrib, protClearA, Nat.land_assoc, Nat.land_assoc]
  congr 1

/-- C1 amended: `pmp_set_tor` programs exactly the two PMP slots `n` and
`n+1`: slot `n`'s address register holds the start address shifted right
by two bits *with bit 9 additionally cleared* (`&= ~(NAPOT_SIZE >> 3)`),
and its configuration byte holds the permission bits with the match-mode
bits cleared; slot `n+1`'s address register holds the end address shifted
right by two bits with bit 9 likewise cleared, and its configuration byte
holds the same permission bits with the top-of-range match mode set; the
address registers and configuration bytes of all other slots are left
unchanged, and the function returns 0. -/
theorem pmp_set_tor_two_slots (n prot a b : Nat) (s : Csrs) (hn : n < 63) :
    (pmp_set_tor n prot a b s).1 = 0 ∧
    (pmp_set_tor n prot a b s).2 (CSR_PMPADDR0 + n) = torShift a ∧
    (pmp_set_tor n prot a b s).2 (CSR_PMPADDR0 + (n + 1)) = torShift b ∧
    cfgByte (pmp_set_tor n prot a b s).2 n = prot &&& (0xFF ^^^ PMP_A) ∧
    cfgByte (pmp_set_tor n prot a b s).2 (n + 1) =
      (prot &&& (0xFF ^^^ PMP_A)) ||| PMP_A_TOR ∧
    (∀ m, m < 64 → m ≠ n → m ≠ n + 1 →
      (pmp_set_tor n prot a b s).2 (CSR_PMPADDR0 + m) = s (CSR_PMPADDR0 + m) ∧
      cfgByte (pmp_set_tor n prot a b s).2 m = cfgByte s m) := by
  have hn64 : n < 64 := by omega
  have h1n64 : n + 1 < 64 := by omega
  have hCn : cfgAddr n = CSR_PMPCFG0 + 2 * (n / 8) := cfgAddr_eq n hn64
  have hCn1 : cfgAddr (n + 1) = CSR_PMPCFG0 + 2 * ((n + 1) / 8) := cfgAddr_eq (n + 1) h1n64
  have haddrCn : ∀ m, CSR_PMPADDR0 + m ≠ cfgAddr n := by
    intro m; rw [hCn]; simp only [CSR_PMPCFG0, CSR_PMPADDR0]; omega
  have haddrCn1 : ∀ m, CSR_PMPADDR0 + m ≠ cfgAddr (n + 1) := by
    intro m; rw [hCn1]; simp only [CSR_PMPCFG0, CSR_PMPADDR0]; omega
  have hCnaddr : ∀ m, cfgAddr n ≠ CSR_PMPADDR0 + m := fun m => (haddrCn m).symm
  have hCn1addr : ∀ m, cfgAddr (n + 1) ≠ CSR_PMPADDR0 + m := fun m => (haddrCn1 m).symm
  have hshn : shiftOf n ≤ 56 := by rw [shiftOf_eq]; omega
  have hshn1 : shiftOf (n + 1) ≤ 56 := by rw [shiftOf_eq]; omega
  refine ⟨rfl, ?_, ?_, ?_, ?_, ?_⟩
  · rw [pmp_set_tor_snd,
      csrWrite_other _ _ _ _ (haddrCn1 n),
      csrWrite_other _ _ _ _ (by intro h; omega : CSR_PMPADDR0 + n ≠ CSR_PMPADDR0 + (n + 1)),
      csrWrite_other _ _ _ _ (haddrCn n),
      csrWrite_self]
  · rw [pmp_set_tor_snd, csrWrite_other _ _ _ _ (haddrCn1 (n + 1)), csrWrite_self]
  · rw [cfgByte_eval, pmp_set_tor_snd]
    by_cases h7 : n % 8 = 7
    · have hCne : cfgAddr n ≠ cfgAddr (n + 1) := by
        rw [hCn, hCn1]
        have : (n + 1) / 8 = n / 8 + 1 := by omega
        omega
      rw [csrWrite_other _ _ _ _ hCne,
        csrWrite_other _ _ _ _ (hCnaddr (n + 1)),
        csrWrite_self,
        rmwByte_self _ _ _ hshn, protClearA_byte]
    · have hCeq : cfgAddr (n + 1) = cfgAddr n := by
        rw [hCn, hCn1]
        have : (n + 1) / 8 = n / 8 := by omega
        omega
      rw [hCeq, csrWrite_self,
        rmwByte_other _ _ _ _ hshn
          (by rw [shiftOf_eq, shiftOf_eq]; omega),
        csrWrite_self,
        rmwByte_self _ _ _ hshn, protClearA_byte]
  · rw [cfgByte_eval, pmp_set_tor_snd, csrWrite_self,
      rmwByte_self _ _ _ hshn1, protTor_byte]
  · intro m hm64 hmn hmn1
    have hCm : cfgAddr m = CSR_PMPCFG0 + 2 * (m / 8) := cfgAddr_eq m hm64
    constructor
    · rw [pmp_set_tor_snd,
        csrWrite_other _ _ _ _ (haddrCn1 m),
        csrWrite_other _ _ _ _ (by intro h; omega : CSR_PMPADDR0 + m ≠ CSR_PMPADDR0 + (n + 1)),
        csrWrite_other _ _ _ _ (haddrCn m),
        csrWrite_other _ _ _ _ (by intro h; omega : CSR_PMPADDR0 + m ≠ CSR_PMPADDR0 + n)]
    · simp only [cfgByte_eval, pmp_set_tor_snd]
      have hshm : shiftOf m ≤ 56 := by rw [shiftOf_eq]; omega
      by_cases hg1 : m / 8 = (n + 1) / 8
      · have hCeq1 : cfgAddr m = cfgAddr (n + 1) := by rw [hCm, hCn1, hg1]
        rw [hCeq1, csrWrite_self,
          rmwByte_other _ _ _ _ hshm
            (by rw [shiftOf_eq, shiftOf_eq]; omega)]
        by_cases hg2 : m / 8 = n / 8
        · have hCeq2 : cfgAddr (n + 1) = cfgAddr n := by
            rw [hCn, hCn1, ← hg1, hg2]
          rw [hCeq2, csrWrite_self,
            rmwByte_other _ _ _ _ hshm
              (by rw [shiftOf_eq, shiftOf_eq]; omega)]
        · have hCne2 : cfgAddr (n + 1) ≠ cfgAddr n := by
            rw [hCn, hCn1]; omega
          rw [csrWrite_other _ _ _ _ hCne2,
            csrWrite_other _ _ _ _ (hCn1addr n)]
      · have hCne1 : cfgAddr m ≠ cfgAddr (n + 1) := by rw [hCm, hCn1]; omega
        have hCmaddr : ∀ k, cfgAddr m ≠ CSR_PMPADDR0 + k := by
          intro k; rw [hCm]; simp only [CSR_PMPCFG0, CSR_PMPADDR0]; omega
        rw [csrWrite_other _ _ _ _ hCne1,
          csrWrite_other _ _ _ _ (hCmaddr (n + 1))]
        by_cases hg2 : m / 8 = n / 8
        · have hCeq2 : cfgAddr m = cfgAddr n := by rw [hCm, hCn, hg2]
          rw [hCeq2, csrWrite_self,
            rmwByte_other _ _ _ _ hshm
              (by rw [shiftOf_eq, shiftOf_eq]; omega)]
        · have hCne2 : cfgAddr m ≠ cfgAddr n := by rw [hCm, hCn]; omega
          rw [csrWrite_other _ _ _ _ hCne2,
            csrWrite_other _ _ _ _ (hCmaddr n)]

/-- Witness for C1 (amended) at the TOR region `[0x1000, 0x2000)` with
read permission in slots 0 and 1. -/
theorem pmp_set_tor_two_slots_w :
    (pmp_set_tor 0 PMP_R 0x1000 0x2000 csr0).2 (CSR_PMPADDR0 + 0) = torShift 0x1000 ∧
    cfgByte (pmp_set_tor 0 PMP_R 0x1000 0x2000 csr0).2 (0 + 1) =
      (PMP_R &&& (0xFF ^^^ PMP_A)) ||| PMP_A_TOR :=
  ⟨(pmp_set_tor_two_slots 0 PMP_R 0x1000 0x2000 csr0 (by decide)).2.1,
   (pmp_set_tor_two_slots 0 PMP_R 0x1000 0x2000 csr0 (by decide)).2.2.2.2.1⟩

end SbiHart
